import Mathlib

/-!
Verification development for the yakuza Job and Http modules.

The Job module (constructor, `_setUid`, `_applyPlan`, `_buildTask`,
`_buildExecutionBlock`, `_applyNextExecutionBlock`, `_prepareRun`,
`_onJobStart`, `_setEventListeners`, `params`, `enqueue`, `run`) and the
Http module (`_interceptResponse`, `_pushToLog`, verb delegates, `getLog`)
are shallowly embedded below.  JavaScript values that the code inspects
(truthiness, `_.isString`, `_.isArray`, `_.isObject`, `.length`) are
modelled by the `JsVal` type; fallible methods return `Except String`;
mutation of `this` becomes explicit state passing on `JobState` /
`HttpState`.  Event emissions and the agent setup hook are recorded in a
ghost `trace` field so that ordering claims can be stated.
-/

namespace Yakuza

/-- Fragment of JavaScript values inspected by the Job code: `undefined`,
`null`, booleans, numbers, strings, arrays and plain objects. -/
inductive JsVal where
  | undef
  | null
  | bool (b : Bool)
  | num (n : Int)
  | str (s : String)
  | arr (xs : List JsVal)
  | obj (fields : List (String × JsVal))

/-- JavaScript truthiness: `undefined`, `null`, `false`, `0` and the empty
string are falsy; arrays and objects are always truthy. -/
def JsVal.falsy : JsVal → Bool
  | .undef => true
  | .null => true
  | .bool b => !b
  | .num n => n == 0
  | .str s => s == ""
  | .arr _ => false
  | .obj _ => false

/-- lodash `_.isString`. -/
def JsVal.isString : JsVal → Bool
  | .str _ => true
  | _ => false

/-- lodash `_.isArray`. -/
def JsVal.isArray : JsVal → Bool
  | .arr _ => true
  | _ => false

/-- lodash `_.isObject` restricted to this value fragment: arrays and plain
objects are objects, scalars are not. -/
def JsVal.isObject : JsVal → Bool
  | .arr _ => true
  | .obj _ => true
  | _ => false

/-- The JavaScript `.length` property: defined for strings and arrays,
`undefined` (here `none`) for every other value. -/
def JsVal.lengthProp : JsVal → Option Int
  | .str s => some s.length
  | .arr xs => some xs.length
  | _ => none

/-- The string payload of a `JsVal` known to be a string. -/
def JsVal.asString : JsVal → String
  | .str s => s
  | _ => ""

/-- The field list of a `JsVal` known to be a plain object. -/
def JsVal.objFields : JsVal → List (String × JsVal)
  | .obj fields => fields
  | _ => []

/-- JavaScript `x <= b` where `x` may be `undefined` (`none`): a comparison
with `undefined` is false. -/
def jsLE : Option Int → Int → Bool
  | none, _ => false
  | some a, b => a ≤ b

/-- Assign one key on a JavaScript object: an existing key keeps its
position and receives the new value, a fresh key is appended. -/
def jsAssign (fields : List (String × JsVal)) (k : String) (v : JsVal) :
    List (String × JsVal) :=
  match fields with
  | [] => [(k, v)]
  | (k', v') :: rest =>
      if k' = k then (k, v) :: rest else (k', v') :: jsAssign rest k v

/-- lodash `_.extend(dst, src)`: shallow copy of every own field of `src`
onto `dst`, in field order, overwriting existing keys. -/
def jsExtend (dst src : List (String × JsVal)) : List (String × JsVal) :=
  src.foldl (fun d kv => jsAssign d kv.1 kv.2) dst

/-- JavaScript array indexing `xs[i]`: `undefined` (`none`) when the index
is negative or at least the length. -/
def jsIndex {α : Type} (xs : List α) (i : Int) : Option α :=
  if i < 0 then none else xs.get? i.toNat

/-- JavaScript `Array.prototype.indexOf`: index of the first occurrence,
`-1` when absent. -/
def jsIndexOf (xs : List String) (x : String) : Int :=
  match xs with
  | [] => -1
  | y :: ys =>
      if y == x then 0
      else
        let r := jsIndexOf ys x
        if r < 0 then -1 else r + 1

/-- A task spec inside a Master Plan group: `{taskId, sync, selfSync}`.
The `sync` and `selfSync` flags are truthy-tested by the code, so they are
modelled as booleans. -/
structure TaskSpec where
  taskId : String
  sync : Bool
  selfSync : Bool
deriving Repr, DecidableEq

/-- A task definition from the Agent registry; `_build()` takes no
arguments in the given source and returns an array of task instances. -/
structure TaskDefinition (Task : Type) where
  build : List Task

/-- The part of the external Agent that the Job code reads: `id` (used in
the UnknownTask message), `_taskDefinitions` (registry keyed by task id)
and `_plan` (the Master Plan). -/
structure Agent (Task : Type) where
  id : String
  taskDefinitions : List (String × TaskDefinition Task)
  plan : List (List TaskSpec)

/-- An execution unit `{task: <taskInstance>, next: <unit or null>}`. -/
inductive ExecutionUnit (Task : Type) where
  | mk (task : Task) (next : Option (ExecutionUnit Task))

/-- The task instance wrapped by an execution unit. -/
def ExecutionUnit.task {Task : Type} : ExecutionUnit Task → Task
  | .mk t _ => t

/-- The `next` link of an execution unit. -/
def ExecutionUnit.next {Task : Type} : ExecutionUnit Task → Option (ExecutionUnit Task)
  | .mk _ n => n

/-- All task instances reachable from a unit by following `next` links,
head first. -/
def ExecutionUnit.chainTasks {Task : Type} : ExecutionUnit Task → List Task
  | .mk t none => [t]
  | .mk t (some u) => t :: u.chainTasks

/-- Ghost events recording the order of the setup hook, the plan
computation and each `eq:applyBlock` emission. -/
inductive JobEvent where
  | setupHook
  | planComputed
  | blockApplied (idx : Int)
deriving Repr, DecidableEq

/-- The mutable state of a Job instance.  Fields mirror the constructor:
`_started`, `_planIdx`, `_executionQueueIdx`, `_params`, `_enqueuedTasks`,
`_plan` (null until `_applyPlan` runs), `_executionQueue`, `_agent`,
`uid` (initialised to null).  `agentSetup` is the external
`_applySetup` method of the agent; `startArmed` models the one-shot
`job:start` listener registered with `once`; `startCount` counts handled
`job:start` transitions; `trace` is the ghost event trace. -/
structure JobState (Task : Type) where
  started : Bool
  planIdx : Int
  executionQueueIdx : Int
  prms : List (String × JsVal)
  enqueuedTasks : List String
  plan : Option (List (List TaskSpec))
  executionQueue : List (List (ExecutionUnit Task))
  agent : Agent Task
  agentSetup : Agent Task → Agent Task
  uid : JsVal
  startArmed : Bool
  startCount : Nat
  trace : List JobEvent

namespace Job

variable {Task : Type}

/-- The field initialisation performed by the Job constructor before
`_setUid` runs. -/
def initJob (agent : Agent Task) (agentSetup : Agent Task → Agent Task) :
    JobState Task :=
  { started := false
    planIdx := -1
    executionQueueIdx := -1
    prms := []
    enqueuedTasks := []
    plan := none
    executionQueue := []
    agent := agent
    agentSetup := agentSetup
    uid := JsVal.null
    startArmed := true
    startCount := 0
    trace := [] }

/-- Job.prototype._setUid: throws unless the argument is truthy, a string
and of positive length; otherwise assigns `this.uid`. -/
def setUid (st : JobState Task) (argUid : JsVal) : Except String (JobState Task) :=
  if argUid.falsy || !argUid.isString || jsLE argUid.lengthProp 0 then
    Except.error "Job uid must be a valid string"
  else
    Except.ok { st with uid := argUid }

/-- The Job constructor: initialises all fields, then calls `_setUid(uid)`
only when the `uid` argument is not `undefined`. -/
def new (agent : Agent Task) (agentSetup : Agent Task → Agent Task)
    (uid : JsVal) : Except String (JobState Task) :=
  match uid with
  | JsVal.undef => Except.ok (initJob agent agentSetup)
  | u => setUid (initJob agent agentSetup) u

/-- One step of the inner loop of Job.prototype._applyPlan: look up the
enqueued task id in the group task ids with `indexOf` and, when the match
index is nonnegative, push the group element at that index. -/
def planMatchStep (executionGroup : List TaskSpec)
    (newTaskGroup : List TaskSpec) (enqueuedTask : String) : List TaskSpec :=
  let groupTaskIds := executionGroup.map (fun taskObj => taskObj.taskId)
  let matchIdx := jsIndexOf groupTaskIds enqueuedTask
  if matchIdx ≥ 0 then newTaskGroup ++ (jsIndex executionGroup matchIdx).toList
  else newTaskGroup

/-- The filtered group Job.prototype._applyPlan builds for one Master Plan
group: fold the enqueued task ids, in enqueue order, through the indexOf
match step. -/
def applyPlanGroup (executionGroup : List TaskSpec)
    (enqueuedTasks : List String) : List TaskSpec :=
  enqueuedTasks.foldl (planMatchStep executionGroup) []

/-- Job.prototype._applyPlan as a pure function of the Master Plan and the
enqueued task ids: filter every group, keep (in order) exactly the groups
whose filtered form has positive length. -/
def applyPlan (executionPlan : List (List TaskSpec))
    (enqueuedTasks : List String) : List (List TaskSpec) :=
  executionPlan.foldl
    (fun newExecutionPlan executionGroup =>
      let newTaskGroup := applyPlanGroup executionGroup enqueuedTasks
      if newTaskGroup.length > 0 then newExecutionPlan ++ [newTaskGroup]
      else newExecutionPlan)
    []

/-- Job.prototype._buildTask.  The receiver's `_agent` is passed
explicitly; `none` models an undefined `_agent` (reading
`_taskDefinitions` off it throws a TypeError).  With a defined agent the
registry is consulted and a missing definition throws the UnknownTask
error naming the task id and the agent id. -/
def buildTask (thisAgent : Option (Agent Task)) (taskSpecs : TaskSpec) :
    Except String (List Task) :=
  match thisAgent with
  | none => Except.error "TypeError: Cannot read property _taskDefinitions of undefined"
  | some agent =>
      match agent.taskDefinitions.lookup taskSpecs.taskId with
      | none =>
          Except.error
            ("Task with id " ++ taskSpecs.taskId ++ " does not exist in agent "
              ++ agent.id)
      | some taskDefinition => Except.ok taskDefinition.build

/-- The linked chain that the selfSync branch of
Job.prototype._buildExecutionBlock builds by mutating
`previousObject.next`: the first task becomes the head, each later task
becomes the `next` of the previous unit, the last unit has `next` null. -/
def chainUnits {Task : Type} : List Task → Option (ExecutionUnit Task)
  | [] => none
  | t :: ts => some (ExecutionUnit.mk t (chainUnits ts))

/-- The tail-recursive body of Job.prototype._buildExecutionBlock: for
each task spec, build its tasks; a selfSync spec contributes its chain
head (if any) to the block, a non-selfSync spec contributes one unit with
`next` null per task.  A buildTask throw aborts the block. -/
def buildExecutionBlockGo (thisAgent : Option (Agent Task)) :
    List TaskSpec → List (ExecutionUnit Task) →
    Except String (List (ExecutionUnit Task))
  | [], executionBlock => Except.ok executionBlock
  | taskSpecs :: rest, executionBlock =>
      match buildTask thisAgent taskSpecs with
      | Except.error e => Except.error e
      | Except.ok tasks =>
          let executionBlock' :=
            if taskSpecs.selfSync then
              executionBlock ++ (chainUnits tasks).toList
            else
              executionBlock ++ tasks.map (fun task => ExecutionUnit.mk task none)
          buildExecutionBlockGo thisAgent rest executionBlock'

/-- Job.prototype._buildExecutionBlock.  The plan group may be `undefined`
(`none`), in which case the lodash iteration runs zero times and the block
is empty. -/
def buildExecutionBlock (thisAgent : Option (Agent Task))
    (planGroup : Option (List TaskSpec)) :
    Except String (List (ExecutionUnit Task)) :=
  buildExecutionBlockGo thisAgent (planGroup.getD []) []

/-- The `_agent` of `Job.prototype` itself: the prototype object carries
only methods, so its `_agent` property is undefined.  The source line
`executionBlock = Job.prototype._buildExecutionBlock(this._plan[this._planIdx])`
invokes the builder with `this = Job.prototype`, hence with this value. -/
def protoAgent (Task : Type) : Option (Agent Task) := none

/-- Job.prototype._applyNextExecutionBlock: increment `_planIdx`, build a
block from `this._plan[this._planIdx]` via `Job.prototype._buildExecutionBlock`
(receiver Job.prototype, so its `_agent` is undefined), push it and emit
`eq:applyBlock` (recorded in the trace; the listener `_onEqApplyBlock` is
a no-op).  Indexing a null `_plan` throws a TypeError. -/
def applyNextExecutionBlock (st : JobState Task) : Except String (JobState Task) :=
  let st1 := { st with planIdx := st.planIdx + 1 }
  match st1.plan with
  | none => Except.error "TypeError: Cannot read property of null"
  | some p =>
      match buildExecutionBlock (protoAgent Task) (jsIndex p st1.planIdx) with
      | Except.error e => Except.error e
      | Except.ok executionBlock =>
          Except.ok
            { st1 with
              executionQueue := st1.executionQueue ++ [executionBlock]
              trace := st1.trace ++ [JobEvent.blockApplied st1.planIdx] }

/-- Job.prototype._applyAgentSetup: invoke the external agent setup hook
(recorded in the trace). -/
def applyAgentSetup (st : JobState Task) : JobState Task :=
  { st with
    agent := st.agentSetup st.agent
    trace := st.trace ++ [JobEvent.setupHook] }

/-- The `_applyPlan` call as a state transformer: compute the effective
plan from the (post-setup) agent Master Plan and the enqueued tasks and
store it in `_plan` (recorded in the trace). -/
def applyPlanState (st : JobState Task) : JobState Task :=
  { st with
    plan := some (applyPlan st.agent.plan st.enqueuedTasks)
    trace := st.trace ++ [JobEvent.planComputed] }

/-- Job.prototype._prepareRun: agent setup, then plan computation. -/
def prepareRun (st : JobState Task) : JobState Task :=
  applyPlanState (applyAgentSetup st)

/-- Job.prototype._onJobStart: prepare the run, then apply the first
execution block. -/
def onJobStart (st : JobState Task) : Except String (JobState Task) :=
  applyNextExecutionBlock (prepareRun st)

/-- Emission of `job:start`: the listener was registered with `once`, so
it runs only while armed, disarming itself and counting the transition. -/
def emitJobStart (st : JobState Task) : Except String (JobState Task) :=
  if st.startArmed then
    onJobStart { st with startArmed := false, startCount := st.startCount + 1 }
  else
    Except.ok st

/-- Job.prototype.run: return immediately when `_started` is set,
otherwise set it and emit `job:start`. -/
def run (st : JobState Task) : Except String (JobState Task) :=
  if st.started then Except.ok st
  else emitJobStart { st with started := true }

/-- Job.prototype.params: throw unless the argument is a non-array
object, otherwise `_.extend` it into `_params` (and return the job). -/
def params (st : JobState Task) (paramsObj : JsVal) : Except String (JobState Task) :=
  if paramsObj.isArray || !paramsObj.isObject then
    Except.error "Params must be an object"
  else
    Except.ok { st with prms := jsExtend st.prms paramsObj.objFields }

/-- Job.prototype.enqueue: throw unless the argument is a string of
positive length, otherwise push it onto `_enqueuedTasks` (and return the
job). -/
def enqueue (st : JobState Task) (taskId : JsVal) : Except String (JobState Task) :=
  if !taskId.isString || jsLE taskId.lengthProp 0 then
    Except.error "Enqueue params is not a valid string"
  else
    Except.ok { st with enqueuedTasks := st.enqueuedTasks ++ [taskId.asString] }

end Job

/-- The `uri` object of a request: `protocol` (such as "http:") and
`hostname`. -/
structure JsUri where
  protocol : String
  hostname : String
deriving Repr, DecidableEq

/-- The `request` object attached to a response: its `uri` and its final
`href`. -/
structure JsRequest where
  uri : JsUri
  href : String
deriving Repr, DecidableEq

/-- A response object as read by `_interceptResponse`: the effective
request plus an opaque status code. -/
structure JsResponse where
  request : JsRequest
  statusCode : Nat
deriving Repr, DecidableEq

/-- One entry of the Http request log, as pushed by
Http.prototype._interceptResponse. -/
structure LogEntry where
  response : JsResponse
  body : String
  cookies : String
  request : JsRequest
  url : String
deriving Repr, DecidableEq

/-- The state of an Http instance: the cookie jar (modelled by its
`getCookieString` view) and the request log. -/
structure HttpState where
  cookieJar : String → String
  log : List LogEntry

/-- How the callback passed to a verb delegate was invoked. -/
inductive CallbackCall where
  | errCall (e : String)
  | okCall (res : JsResponse) (body : String)
  | notCalled

namespace Http

/-- Http.prototype._interceptResponse: on an error, invoke the callback
with the error and log nothing; otherwise resolve the cookie string for
`protocol + "//" + hostname`, push the log entry
`{response, body, cookies, request: res.request, url: res.request.href}`,
and invoke the callback when it is a function. -/
def interceptResponse (st : HttpState) (err : Option String)
    (res : JsResponse) (body : String) (hasCallback : Bool) :
    HttpState × CallbackCall :=
  match err with
  | some e => (st, CallbackCall.errCall e)
  | none =>
      let cookieHost := res.request.uri.protocol ++ "//" ++ res.request.uri.hostname
      let cookieString := st.cookieJar cookieHost
      let entry : LogEntry :=
        { response := res, body := body, cookies := cookieString,
          request := res.request, url := res.request.href }
      ({ st with log := st.log ++ [entry] },
       if hasCallback then CallbackCall.okCall res body else CallbackCall.notCalled)

/-- Http.prototype.getLog. -/
def getLog (st : HttpState) : List LogEntry := st.log

/-- The six verb delegates of the Http wrapper. -/
inductive Verb where
  | del | get | head | patch | post | put
deriving Repr, DecidableEq

/-- A completion of the underlying request library: the `(err, res, body)`
triple it hands to the handler installed by a verb delegate. -/
structure Completion where
  err : Option String
  res : JsResponse
  body : String

/-- Completion of one verb delegate call: every verb installs the same
handler, which forwards `(err, res, body)` to `_interceptResponse`
together with the pattern-matched callback. -/
def verbComplete (_v : Verb) (st : HttpState) (c : Completion)
    (hasCallback : Bool) : HttpState × CallbackCall :=
  interceptResponse st c.err c.res c.body hasCallback

/-- The log entry that a successful completion produces, given the jar
view in effect. -/
def completionEntry (jar : String → String) (c : Completion) : LogEntry :=
  { response := c.res, body := c.body,
    cookies := jar (c.res.request.uri.protocol ++ "//" ++ c.res.request.uri.hostname),
    request := c.res.request, url := c.res.request.href }

/-- Fold a sequence of verb completions, in completion order, through the
interceptor. -/
def processCompletions (st : HttpState) (cs : List (Verb × Completion × Bool)) :
    HttpState :=
  cs.foldl (fun s x => (verbComplete x.1 s x.2.1 x.2.2).1) st

end Http

/-! Concrete instances used by counterexamples and witnesses. -/

/-- A task definition whose builder returns a single instance. -/
def tdOne : TaskDefinition String := { build := ["t1-instance"] }

/-- An agent with one one-group Master Plan entry for task "t1" and a
registry containing "t1". -/
def agentX : Agent String :=
  { id := "agent1"
    taskDefinitions := [("t1", tdOne)]
    plan := [[{ taskId := "t1", sync := false, selfSync := false }]] }

/-- An agent with an empty Master Plan and empty registry. -/
def agentE : Agent String :=
  { id := "agentE", taskDefinitions := [], plan := [] }

/-- A fresh job on the empty agent, with the identity setup hook. -/
def jobE : JobState String := Job.initJob agentE id

/-- The fresh empty-agent job after `_prepareRun`. -/
def jobEPrepared : JobState String := Job.prepareRun jobE

/-- The prepared empty-agent job after one `_applyNextExecutionBlock`:
cursor at 0, one (empty) block in the queue. -/
def jobEAfter : JobState String :=
  { jobEPrepared with
    planIdx := 0
    executionQueue := [[]]
    trace := jobEPrepared.trace ++ [JobEvent.blockApplied 0] }

/-- The fresh empty-agent job after `_onJobStart`. -/
def jobEStarted : JobState String :=
  { jobE with
    planIdx := 0
    plan := some []
    executionQueue := [[]]
    trace := [JobEvent.setupHook, JobEvent.planComputed, JobEvent.blockApplied 0] }

/-- A job state whose cursor already sits at the last effective-plan group
(index 0 of a one-group plan), with that group's block in the queue. -/
def jobExhausted : JobState String :=
  { started := true
    planIdx := 0
    executionQueueIdx := -1
    prms := []
    enqueuedTasks := ["a"]
    plan := some [[{ taskId := "a", sync := false, selfSync := false }]]
    executionQueue := [[ExecutionUnit.mk "a-instance" none]]
    agent := agentE
    agentSetup := id
    uid := JsVal.str "j"
    startArmed := false
    startCount := 1
    trace := [JobEvent.setupHook, JobEvent.planComputed, JobEvent.blockApplied 0] }

/-- `jobExhausted` after one more `_applyNextExecutionBlock`: the cursor
moves to 1, past the last valid group index 0, and an empty block is
appended. -/
def jobExhaustedAfter : JobState String :=
  { jobExhausted with
    planIdx := 1
    executionQueue := jobExhausted.executionQueue ++ [[]]
    trace := jobExhausted.trace ++ [JobEvent.blockApplied 1] }

/-- The Plan Filter as the spec words it: iterate the Master Plan groups
in order; for each group, append (in enqueue order) the first group
TaskSpec matching each enqueued identifier; drop groups with zero
surviving TaskSpecs.  Stated from the spec for comparison with the
source-derived `Job.applyPlan`. -/
def planFilterSpec (masterPlan : List (List TaskSpec))
    (enqueued : List String) : List (List TaskSpec) :=
  (masterPlan.map
      (fun g => enqueued.filterMap (fun e => g.find? (fun t => t.taskId == e)))).filter
    (fun g => !g.isEmpty)

/-- A task spec for identifier "a". -/
def specA : TaskSpec := { taskId := "a", sync := false, selfSync := false }

/-- A task spec for identifier "b". -/
def specB : TaskSpec := { taskId := "b", sync := false, selfSync := false }

/-- A task definition whose builder returns three instances. -/
def tdThree : TaskDefinition Nat := { build := [1, 2, 3] }

/-- An agent registering the three-instance builder under "t3". -/
def agentT : Agent Nat :=
  { id := "agentT", taskDefinitions := [("t3", tdThree)], plan := [] }

/-- A self-synchronous spec for "t3". -/
def specSync : TaskSpec := { taskId := "t3", sync := false, selfSync := true }

/-- A non-self-synchronous spec for "t3". -/
def specAsync : TaskSpec := { taskId := "t3", sync := false, selfSync := false }

/-- A concrete request uri. -/
def uriW : JsUri := { protocol := "http:", hostname := "www.1.com" }

/-- A concrete effective request. -/
def reqW : JsRequest := { uri := uriW, href := "http://www.1.com/" }

/-- A concrete response. -/
def resW : JsResponse := { request := reqW, statusCode := 200 }

/-- A successful completion for `resW`. -/
def compW : Http.Completion := { err := none, res := resW, body := "Body1" }

/-- A second concrete uri, request, response and completion. -/
def uriW2 : JsUri := { protocol := "http:", hostname := "www.2.com" }

/-- The request of the second completion. -/
def reqW2 : JsRequest := { uri := uriW2, href := "http://www.2.com/" }

/-- The response of the second completion. -/
def resW2 : JsResponse := { request := reqW2, statusCode := 200 }

/-- The second successful completion. -/
def compW2 : Http.Completion := { err := none, res := resW2, body := "Body2" }

/-- A concrete Http state: empty log, a jar resolving per host. -/
def httpW : HttpState :=
  { cookieJar := fun h => if h == "http://www.1.com" then "a=1" else "b=2"
    log := [] }

namespace Job

variable {Task : Type}

/-- The plan cursor sits exactly one behind the queue length: one cursor
increment per produced block. -/
def cursorQueueAligned (st : JobState Task) : Prop :=
  st.planIdx = (st.executionQueue.length : Int) - 1

/-- Every block in the queue is the block built (by the code, with the
prototype receiver) from the effective-plan group of the same index:
blocks appear in effective-plan group order. -/
def queueMatchesPlan (st : JobState Task) : Prop :=
  ∀ (i : Nat) (b : List (ExecutionUnit Task)),
    st.executionQueue.get? i = some b →
    ∃ p, st.plan = some p ∧
      buildExecutionBlock (protoAgent Task) (jsIndex p (i : Int)) = Except.ok b

end Job

/-! Helper lemmas. -/

/-- Selecting `executionGroup[indexOf(groupTaskIds, e)]` when the index is
nonnegative picks exactly the first group element whose `taskId` is `e`. -/
theorem indexOf_select (g : List TaskSpec) (e : String) :
    (if jsIndexOf (g.map (fun t => t.taskId)) e ≥ 0 then
       (jsIndex g (jsIndexOf (g.map (fun t => t.taskId)) e)).toList
     else []) = (g.find? (fun t => t.taskId == e)).toList := by
  induction g with
  | nil => simp [jsIndexOf]
  | cons t g ih =>
      by_cases h : (t.taskId == e) = true
      · simp [jsIndexOf, h, jsIndex, List.find?_cons_of_pos _ h]
      · have h' : (t.taskId == e) = false := by simpa using h
        rw [List.map_cons]
        simp only [jsIndexOf, h', if_false, Bool.false_eq_true]
        rw [List.find?_cons_of_neg _ (by simp [h'])]
        by_cases hr : jsIndexOf (g.map (fun t => t.taskId)) e < 0
        · rw [if_pos hr, if_neg (by omega), ← ih, if_neg (by omega)]
        · rw [if_neg hr, if_pos (by omega), ← ih, if_pos (by omega)]
          have hnn : ¬ jsIndexOf (g.map (fun t => t.taskId)) e + 1 < 0 := by omega
          have htn : (jsIndexOf (g.map (fun t => t.taskId)) e + 1).toNat
              = (jsIndexOf (g.map (fun t => t.taskId)) e).toNat + 1 := by omega
          simp only [jsIndex, if_neg hnn, if_neg hr, htn, List.get?_cons_succ]

/-- One inner-loop step of `_applyPlan` appends the first matching spec
(if any) to the accumulated group. -/
theorem planMatchStep_eq_find (g acc : List TaskSpec) (e : String) :
    Job.planMatchStep g acc e = acc ++ (g.find? (fun t => t.taskId == e)).toList := by
  show (if jsIndexOf (g.map (fun t => t.taskId)) e ≥ 0 then
          acc ++ (jsIndex g (jsIndexOf (g.map (fun t => t.taskId)) e)).toList
        else acc) = _
  by_cases h : jsIndexOf (g.map (fun t => t.taskId)) e ≥ 0
  · rw [if_pos h, ← indexOf_select g e, if_pos h]
  · rw [if_neg h, ← indexOf_select g e, if_neg h, List.append_nil]

/-- The inner loop of `_applyPlan`, over any accumulator. -/
theorem foldl_planMatchStep (g : List TaskSpec) (enq : List String)
    (acc : List TaskSpec) :
    enq.foldl (Job.planMatchStep g) acc =
      acc ++ enq.filterMap (fun e => g.find? (fun t => t.taskId == e)) := by
  induction enq generalizing acc with
  | nil => simp
  | cons e enq ih =>
      rw [List.foldl_cons, ih, planMatchStep_eq_find]
      cases h : g.find? (fun t => t.taskId == e) <;>
        simp [List.filterMap_cons, h]

/-- The filtered group of `_applyPlan` is, in enqueue order, the first
matching spec of each enqueued identifier. -/
theorem applyPlanGroup_eq_filterMap (g : List TaskSpec) (enq : List String) :
    Job.applyPlanGroup g enq =
      enq.filterMap (fun e => g.find? (fun t => t.taskId == e)) := by
  unfold Job.applyPlanGroup
  rw [foldl_planMatchStep]
  simp

/-- The outer loop of `_applyPlan`, over any accumulator. -/
theorem foldl_applyPlan (mp : List (List TaskSpec)) (enq : List String)
    (acc : List (List TaskSpec)) :
    mp.foldl
      (fun newExecutionPlan executionGroup =>
        let newTaskGroup := Job.applyPlanGroup executionGroup enq
        if newTaskGroup.length > 0 then newExecutionPlan ++ [newTaskGroup]
        else newExecutionPlan)
      acc =
      acc ++ (mp.map (fun g => Job.applyPlanGroup g enq)).filter (fun g => !g.isEmpty) := by
  induction mp generalizing acc with
  | nil => simp
  | cons g mp ih =>
      rw [List.foldl_cons, ih]
      by_cases h : (Job.applyPlanGroup g enq).length > 0
      · have hne : (Job.applyPlanGroup g enq).isEmpty = false := by
          cases hg : Job.applyPlanGroup g enq with
          | nil => rw [hg] at h; simp at h
          | cons a l => simp
        simp only [List.map_cons, List.filter_cons, hne, Bool.not_false, if_pos h]
        simp
      · have hne : (Job.applyPlanGroup g enq).isEmpty = true := by
          cases hg : Job.applyPlanGroup g enq with
          | nil => simp
          | cons a l => rw [hg] at h; simp at h
        simp only [List.map_cons, List.filter_cons, hne, Bool.not_true, if_neg h]
        simp

/-- `_applyPlan` computes exactly the spec-side Plan Filter. -/
theorem applyPlan_eq_spec (mp : List (List TaskSpec)) (enq : List String) :
    Job.applyPlan mp enq = planFilterSpec mp enq := by
  unfold Job.applyPlan planFilterSpec
  rw [foldl_applyPlan]
  rw [List.map_congr_left (fun g _ => applyPlanGroup_eq_filterMap g enq)]
  simp

/-- `find?` skips a prefix on which the predicate is false. -/
theorem find?_append_of_none {α : Type} (p : α → Bool) (l1 l2 : List α)
    (h : ∀ x ∈ l1, p x = false) : (l1 ++ l2).find? p = l2.find? p := by
  induction l1 with
  | nil => rfl
  | cons a l1 ih =>
      rw [List.cons_append, List.find?_cons_of_neg _ (by simp [h a (by simp)])]
      exact ih (fun x hx => h x (by simp [hx]))

/-- A group containing a spec with no registered task definition makes the
block builder fail with the UnknownTask message of some such spec, for any
receiver agent and any accumulated block. -/
theorem buildGo_error {Task : Type} (agent : Agent Task) (group : List TaskSpec) :
    ∀ acc : List (ExecutionUnit Task),
    (∃ s ∈ group, agent.taskDefinitions.lookup s.taskId = none) →
    ∃ s ∈ group, agent.taskDefinitions.lookup s.taskId = none ∧
      Job.buildExecutionBlockGo (some agent) group acc =
        Except.error ("Task with id " ++ s.taskId ++ " does not exist in agent "
          ++ agent.id) := by
  induction group with
  | nil =>
      rintro acc ⟨s, hs, _⟩
      cases hs
  | cons s0 rest ih =>
      rintro acc ⟨s, hs, hnone⟩
      cases hl : agent.taskDefinitions.lookup s0.taskId with
      | none =>
          exact ⟨s0, by simp, hl, by simp [Job.buildExecutionBlockGo, Job.buildTask, hl]⟩
      | some td =>
          have hs' : s ∈ rest := by
            rcases List.mem_cons.mp hs with h | h
            · rw [h] at hnone; rw [hl] at hnone; cases hnone
            · exact h
          obtain ⟨s', hs'', hnone', heq⟩ :=
            ih (if s0.selfSync = true then acc ++ (Job.chainUnits td.build).toList
                else acc ++ td.build.map (fun task => ExecutionUnit.mk task none))
              ⟨s, hs', hnone⟩
          refine ⟨s', by simp [hs''], hnone', ?_⟩
          simp only [Job.buildExecutionBlockGo, Job.buildTask, hl]
          exact heq

/-- A nonempty task list chains into a single unit that traverses exactly
that list. -/
theorem chainUnits_chainTasks {Task : Type} (t : Task) (ts : List Task) :
    ∃ u : ExecutionUnit Task,
      Job.chainUnits (t :: ts) = some u ∧ u.chainTasks = t :: ts := by
  induction ts generalizing t with
  | nil => exact ⟨ExecutionUnit.mk t none, rfl, rfl⟩
  | cons t' ts ih =>
      obtain ⟨u', hu', hc⟩ := ih t'
      refine ⟨ExecutionUnit.mk t (some u'), ?_, ?_⟩
      · show some (ExecutionUnit.mk t (Job.chainUnits (t' :: ts)))
            = some (ExecutionUnit.mk t (some u'))
        rw [hu']
      · simp [ExecutionUnit.chainTasks, hc]

/-- Successful `_applyNextExecutionBlock`, characterised: the plan was
non-null, the block for the incremented cursor built, was appended, and
the `eq:applyBlock` event was recorded. -/
theorem applyNext_ok {Task : Type} (st st' : JobState Task)
    (h : Job.applyNextExecutionBlock st = Except.ok st') :
    ∃ p block, st.plan = some p ∧
      Job.buildExecutionBlock (Job.protoAgent Task) (jsIndex p (st.planIdx + 1)) =
        Except.ok block ∧
      st' = { st with
              planIdx := st.planIdx + 1
              executionQueue := st.executionQueue ++ [block]
              trace := st.trace ++ [JobEvent.blockApplied (st.planIdx + 1)] } := by
  unfold Job.applyNextExecutionBlock at h
  dsimp only at h
  split at h
  · exact absurd h (by simp)
  · next p hp =>
      split at h
      · exact absurd h (by simp)
      · next block hb =>
          refine ⟨p, block, by simpa using hp, hb, ?_⟩
          injection h with h
          exact h.symm

/-- `_applyNextExecutionBlock` never touches `uid`, `_started`, `_params`,
`_enqueuedTasks` or `_plan`. -/
theorem applyNext_preserves {Task : Type} (st st' : JobState Task)
    (h : Job.applyNextExecutionBlock st = Except.ok st') :
    st'.uid = st.uid ∧ st'.started = st.started ∧ st'.prms = st.prms ∧
      st'.enqueuedTasks = st.enqueuedTasks ∧ st'.plan = st.plan := by
  obtain ⟨p, block, hp, hb, rfl⟩ := applyNext_ok st st' h
  exact ⟨rfl, rfl, rfl, rfl, rfl⟩

/-- Field effects of `_prepareRun`: both preparation events are traced in
order, the queue is untouched, the effective plan is stored, and `uid`,
`_planIdx` and `_started` are unchanged. -/
theorem prepareRun_fields {Task : Type} (st : JobState Task) :
    (Job.prepareRun st).trace = st.trace ++ [JobEvent.setupHook, JobEvent.planComputed] ∧
    (Job.prepareRun st).executionQueue = st.executionQueue ∧
    (Job.prepareRun st).plan =
      some (Job.applyPlan (st.agentSetup st.agent).plan st.enqueuedTasks) ∧
    (Job.prepareRun st).uid = st.uid ∧
    (Job.prepareRun st).planIdx = st.planIdx ∧
    (Job.prepareRun st).started = st.started := by
  refine ⟨?_, rfl, rfl, rfl, rfl, rfl⟩
  simp [Job.prepareRun, Job.applyPlanState, Job.applyAgentSetup]

/-- A successful `run` leaves `uid` unchanged. -/
theorem run_ok_uid {Task : Type} (st st' : JobState Task)
    (h : Job.run st = Except.ok st') : st'.uid = st.uid := by
  unfold Job.run at h
  split at h
  · injection h with h
    rw [← h]
  · unfold Job.emitJobStart at h
    split at h
    · unfold Job.onJobStart at h
      exact (applyNext_preserves _ _ h).1
    · injection h with h
      rw [← h]

/-- The first component of a successful interception appends exactly the
completion entry to the log. -/
theorem interceptResponse_ok_log (st : HttpState) (res : JsResponse)
    (body : String) (cb : Bool) :
    (Http.interceptResponse st none res body cb).1 =
      { st with log := st.log ++
          [{ response := res, body := body,
             cookies := st.cookieJar
               (res.request.uri.protocol ++ "//" ++ res.request.uri.hostname),
             request := res.request, url := res.request.href }] } := rfl

/-- Folding successful completions appends their entries in completion
order and never changes the jar. -/
theorem processCompletions_log (cs : List (Http.Verb × Http.Completion × Bool)) :
    ∀ st : HttpState, (∀ x ∈ cs, x.2.1.err = none) →
      (Http.processCompletions st cs).log =
        st.log ++ cs.map (fun x => Http.completionEntry st.cookieJar x.2.1) ∧
      (Http.processCompletions st cs).cookieJar = st.cookieJar := by
  induction cs with
  | nil =>
      intro st h
      simp [Http.processCompletions]
  | cons c cs ih =>
      intro st h
      have hc : c.2.1.err = none := h c (by simp)
      have hstep : (Http.verbComplete c.1 st c.2.1 c.2.2).1 =
          { st with log := st.log ++ [Http.completionEntry st.cookieJar c.2.1] } := by
        unfold Http.verbComplete Http.interceptResponse Http.completionEntry
        rw [hc]
      have hrec : Http.processCompletions st (c :: cs) =
          Http.processCompletions ((Http.verbComplete c.1 st c.2.1 c.2.2).1) cs := by
        unfold Http.processCompletions
        rw [List.foldl_cons]
      obtain ⟨hl, hj⟩ := ih ((Http.verbComplete c.1 st c.2.1 c.2.2).1)
        (fun x hx => h x (by simp [hx]))
      constructor
      · rw [hrec, hl, hstep]
        simp
      · rw [hrec, hj, hstep]

/-! Claim theorems. -/

/-- C1: The Effective Plan computed by the plan filter keeps the Master
Plan group order, drops every group with zero matching TaskSpecs (no empty
group survives), and orders each surviving group by the enqueue order,
with an identifier enqueued k times contributing k copies of its matching
TaskSpec; in particular enqueuing ["a","b","a"] against one group holding
specs for a and b (in either order) yields the single group [a, b, a]. -/
theorem claim_C1_effective_plan (mp : List (List TaskSpec)) (enq : List String)
    (sa sb : TaskSpec) (ha : sa.taskId = "a") (hb : sb.taskId = "b") :
    Job.applyPlan mp enq = planFilterSpec mp enq ∧
    Job.applyPlan [[sa, sb]] ["a", "b", "a"] = [[sa, sb, sa]] ∧
    Job.applyPlan [[sb, sa]] ["a", "b", "a"] = [[sa, sb, sa]] := by
  have hab : (("a" : String) == "b") = false := by decide
  have hba : (("b" : String) == "a") = false := by decide
  refine ⟨applyPlan_eq_spec mp enq, ?_, ?_⟩
  · rw [applyPlan_eq_spec]
    simp [planFilterSpec, List.filterMap_cons, List.find?, ha, hb, hab, hba]
  · rw [applyPlan_eq_spec]
    simp [planFilterSpec, List.filterMap_cons, List.find?, ha, hb, hab, hba]

/-- Witness for C1 at concrete specs. -/
theorem claim_C1_effective_plan_witness :
    Job.applyPlan [[specA, specB]] ["a", "b", "a"] = [[specA, specB, specA]] ∧
    Job.applyPlan [[specB, specA]] ["a", "b", "a"] = [[specA, specB, specA]] := by
  have h := claim_C1_effective_plan [[specA, specB]] ["a", "b", "a"] specA specB rfl rfl
  exact ⟨h.2.1, h.2.2⟩

/-- C10: When a Master Plan group contains duplicate TaskSpecs for the
same taskId, `indexOf` resolves every matching enqueued identifier to the
first such TaskSpec in the group, so later duplicates never enter the
filtered group. -/
theorem claim_C10_first_index_match (g1 g2 g3 : List TaskSpec) (s1 s2 : TaskSpec)
    (enq : List String) (hdup : s2.taskId = s1.taskId)
    (hfirst : ∀ t ∈ g1, t.taskId ≠ s1.taskId) :
    (g1 ++ (s1 :: (g2 ++ (s2 :: g3)))).find? (fun t => t.taskId == s1.taskId) = some s1 ∧
    Job.applyPlanGroup (g1 ++ (s1 :: (g2 ++ (s2 :: g3)))) [s1.taskId] = [s1] ∧
    (∀ x ∈ Job.applyPlanGroup (g1 ++ (s1 :: (g2 ++ (s2 :: g3)))) enq,
       x.taskId = s1.taskId → x = s1) := by
  have hfind : (g1 ++ (s1 :: (g2 ++ (s2 :: g3)))).find? (fun t => t.taskId == s1.taskId)
      = some s1 := by
    rw [find?_append_of_none (fun t => t.taskId == s1.taskId) g1 (s1 :: (g2 ++ (s2 :: g3)))
      (fun x hx => beq_eq_false_iff_ne.mpr (hfirst x hx))]
    exact List.find?_cons_of_pos _ (by simp)
  refine ⟨hfind, ?_, ?_⟩
  · rw [applyPlanGroup_eq_filterMap]
    simp only [List.filterMap_cons, List.filterMap_nil]
    rw [hfind]
  · intro x hx hxid
    rw [applyPlanGroup_eq_filterMap] at hx
    obtain ⟨e, he, hfe⟩ := List.mem_filterMap.mp hx
    have hxe : x.taskId = e := by simpa using List.find?_some hfe
    have hes : e = s1.taskId := by rw [← hxe, hxid]
    rw [hes] at hfe
    rw [hfind] at hfe
    injection hfe with hfe
    exact hfe.symm

/-- Witness for C10 at a concrete duplicated group. -/
theorem claim_C10_first_index_match_witness :
    Job.applyPlanGroup [specA, { taskId := "a", sync := true, selfSync := false }]
        ["a"] = [specA] ∧
    (∀ x ∈ Job.applyPlanGroup [specA, { taskId := "a", sync := true, selfSync := false }]
        ["a", "a"], x.taskId = "a" → x = specA) := by
  have h := claim_C10_first_index_match [] [] []
    specA { taskId := "a", sync := true, selfSync := false } ["a", "a"] rfl
    (fun t ht => absurd ht (List.not_mem_nil t))
  exact ⟨h.2.1, h.2.2⟩

/-- C2: The block builder wraps each built task instance in an
ExecutionUnit; with selfSync false every unit is appended as its own head
with next null (three instances give exactly three heads), and with
selfSync true only the first unit is appended, the rest hang off the next
chain, whose last link is null, so the block gains exactly one head. -/
theorem claim_C2_execution_block_builder {Task : Type} (agent : Agent Task)
    (spec : TaskSpec) (tasks : List Task)
    (hbuild : Job.buildTask (some agent) spec = Except.ok tasks) :
    (∀ (rest : List TaskSpec) (acc : List (ExecutionUnit Task)),
       Job.buildExecutionBlockGo (some agent) (spec :: rest) acc =
         Job.buildExecutionBlockGo (some agent) rest
           (if spec.selfSync = true then acc ++ (Job.chainUnits tasks).toList
            else acc ++ tasks.map (fun task => ExecutionUnit.mk task none))) ∧
    (spec.selfSync = false →
       Job.buildExecutionBlock (some agent) (some [spec]) =
         Except.ok (tasks.map (fun task => ExecutionUnit.mk task none))) ∧
    (spec.selfSync = true → ∀ t ts, tasks = t :: ts →
       ∃ u, Job.buildExecutionBlock (some agent) (some [spec]) = Except.ok [u] ∧
         u.chainTasks = tasks) ∧
    (∀ t1 t2 t3, tasks = [t1, t2, t3] →
       (spec.selfSync = false →
          Job.buildExecutionBlock (some agent) (some [spec]) =
            Except.ok [ExecutionUnit.mk t1 none, ExecutionUnit.mk t2 none,
                       ExecutionUnit.mk t3 none]) ∧
       (spec.selfSync = true →
          Job.buildExecutionBlock (some agent) (some [spec]) =
            Except.ok [ExecutionUnit.mk t1 (some (ExecutionUnit.mk t2
              (some (ExecutionUnit.mk t3 none))))])) := by
  refine ⟨?_, ?_, ?_, ?_⟩
  · intro rest acc
    simp only [Job.buildExecutionBlockGo, hbuild]
  · intro hsync
    simp [Job.buildExecutionBlock, Job.buildExecutionBlockGo, hbuild, hsync]
  · intro hsync t ts hts
    obtain ⟨u, hu, hc⟩ := chainUnits_chainTasks t ts
    refine ⟨u, ?_, by rw [hc, hts]⟩
    simp [Job.buildExecutionBlock, Job.buildExecutionBlockGo, hbuild, hsync, hts, hu]
  · intro t1 t2 t3 hts
    constructor
    · intro hsync
      simp [Job.buildExecutionBlock, Job.buildExecutionBlockGo, hbuild, hsync, hts]
    · intro hsync
      simp [Job.buildExecutionBlock, Job.buildExecutionBlockGo, hbuild, hsync, hts,
        Job.chainUnits]

/-- Witness for C2: the concrete three-instance builder, fan-out and
self-sync. -/
theorem claim_C2_execution_block_builder_witness :
    Job.buildExecutionBlock (some agentT) (some [specAsync]) =
      Except.ok [ExecutionUnit.mk 1 none, ExecutionUnit.mk 2 none,
                 ExecutionUnit.mk 3 none] ∧
    Job.buildExecutionBlock (some agentT) (some [specSync]) =
      Except.ok [ExecutionUnit.mk 1 (some (ExecutionUnit.mk 2
        (some (ExecutionUnit.mk 3 none))))] := by
  have h1 := claim_C2_execution_block_builder agentT specAsync [1, 2, 3] rfl
  have h2 := claim_C2_execution_block_builder agentT specSync [1, 2, 3] rfl
  exact ⟨(h1.2.2.2 1 2 3 rfl).1 rfl, (h2.2.2.2 1 2 3 rfl).2 rfl⟩

/-- C3 (code bug evidence): running a job that enqueued a task present in
the Master Plan and the registry does not append any ExecutionBlock: the
run fails with a TypeError, because `_applyNextExecutionBlock` invokes
`_buildExecutionBlock` on `Job.prototype`, whose `_agent` is undefined.
The same builder invoked with the instance receiver succeeds. -/
theorem claim_C3_run_prototype_typeerror :
    (do
      let st0 ← Job.new agentX id (JsVal.str "job1")
      let st1 ← Job.enqueue st0 (JsVal.str "t1")
      Job.run st1) =
      Except.error "TypeError: Cannot read property _taskDefinitions of undefined" ∧
    Job.buildExecutionBlock (some agentX)
        (some [{ taskId := "t1", sync := false, selfSync := false }]) =
      Except.ok [ExecutionUnit.mk "t1-instance" none] ∧
    Job.buildExecutionBlock (Job.protoAgent String)
        (some [{ taskId := "t1", sync := false, selfSync := false }]) =
      Except.error "TypeError: Cannot read property _taskDefinitions of undefined" := by
  refine ⟨rfl, rfl, rfl⟩

/-- C4: An enqueued identifier matching no Master Plan group is silently
ignored by the plan filter, while building a block for a group holding a
TaskSpec with no registered TaskDefinition fails with the UnknownTask
error naming the task id and the agent id, aborting the block. -/
theorem claim_C4_unknown_handling {Task : Type} (mp : List (List TaskSpec))
    (enq : List String) (e : String) (agent : Agent Task)
    (group : List TaskSpec) :
    ((∀ g ∈ mp, ∀ t ∈ g, t.taskId ≠ e) →
       Job.applyPlan mp (enq ++ [e]) = Job.applyPlan mp enq) ∧
    ((∃ s ∈ group, agent.taskDefinitions.lookup s.taskId = none) →
       ∃ s ∈ group, agent.taskDefinitions.lookup s.taskId = none ∧
         Job.buildExecutionBlock (some agent) (some group) =
           Except.error ("Task with id " ++ s.taskId ++ " does not exist in agent "
             ++ agent.id)) := by
  constructor
  · intro h
    rw [applyPlan_eq_spec, applyPlan_eq_spec]
    unfold planFilterSpec
    congr 1
    apply List.map_congr_left
    intro g hg
    rw [List.filterMap_append]
    have hnone : List.filterMap (fun e' => g.find? (fun t => t.taskId == e')) [e]
        = [] := by
      simp only [List.filterMap_cons, List.filterMap_nil]
      rw [List.find?_eq_none.mpr (fun x hx => by simpa using h g hg x hx)]
    rw [hnone, List.append_nil]
  · intro hex
    exact buildGo_error agent group [] hex

/-- Witness for C4 at a concrete plan and the empty registry. -/
theorem claim_C4_unknown_handling_witness :
    Job.applyPlan [[specA]] (["a"] ++ ["zzz"]) = Job.applyPlan [[specA]] ["a"] ∧
    (∃ s ∈ [specA], agentE.taskDefinitions.lookup s.taskId = none ∧
       Job.buildExecutionBlock (some agentE) (some [specA]) =
         Except.error ("Task with id " ++ s.taskId ++ " does not exist in agent "
           ++ agentE.id)) := by
  have h := claim_C4_unknown_handling [[specA]] ["a"] "zzz" agentE [specA]
  refine ⟨h.1 ?_, h.2 ⟨specA, by simp, rfl⟩⟩
  intro g hg t ht
  simp only [List.mem_singleton] at hg
  subst hg
  simp only [List.mem_singleton] at ht
  subst ht
  decide

/-- C5 counterexample: with the cursor already at the last effective-plan
group, `_applyNextExecutionBlock` is not rejected: it succeeds, moves the
cursor to 1 (past the last valid index 0) and silently appends an empty
ExecutionBlock. -/
theorem claim_C5_counterexample :
    Job.applyNextExecutionBlock jobExhausted = Except.ok jobExhaustedAfter ∧
    jobExhaustedAfter.executionQueue = jobExhausted.executionQueue ++ [[]] ∧
    jobExhaustedAfter.planIdx = 1 ∧
    ((jobExhausted.plan.getD []).length : Int) - 1 = 0 := by
  refine ⟨rfl, rfl, rfl, rfl⟩

/-- C5 amended: requesting the next ExecutionBlock when the cursor has
passed the last Effective Plan group is not rejected: the code increments
the cursor beyond the last valid group index and silently appends an empty
ExecutionBlock to the ExecutionQueue. -/
theorem claim_C5_amended {Task : Type} (st : JobState Task)
    (p : List (List TaskSpec)) (hp : st.plan = some p)
    (hpast : (p.length : Int) ≤ st.planIdx + 1) :
    Job.applyNextExecutionBlock st =
      Except.ok { st with
        planIdx := st.planIdx + 1
        executionQueue := st.executionQueue ++ [[]]
        trace := st.trace ++ [JobEvent.blockApplied (st.planIdx + 1)] } := by
  have hidx : jsIndex p (st.planIdx + 1) = none := by
    unfold jsIndex
    by_cases hneg : st.planIdx + 1 < 0
    · rw [if_pos hneg]
    · rw [if_neg hneg]
      exact List.get?_eq_none.mpr (by omega)
  unfold Job.applyNextExecutionBlock
  dsimp only
  simp only [hp, hidx]
  rfl

/-- Witness for the amended C5 at the concrete exhausted job. -/
theorem claim_C5_amended_witness :
    Job.applyNextExecutionBlock jobExhausted =
      Except.ok { jobExhausted with
        planIdx := jobExhausted.planIdx + 1
        executionQueue := jobExhausted.executionQueue ++ [[]]
        trace := jobExhausted.trace ++
          [JobEvent.blockApplied (jobExhausted.planIdx + 1)] } :=
  claim_C5_amended jobExhausted
    [[{ taskId := "a", sync := false, selfSync := false }]] rfl (by decide)

/-- C6: preparation (setup hook, then plan computation) completes in full,
touching no block, before the first block is built; each successful
`_applyNextExecutionBlock` increments the cursor exactly once and appends
exactly the block of the next group; `_onJobStart` traces setup, plan and
first block strictly in that order; and cursor/queue alignment with
in-order blocks is preserved by block production. -/
theorem claim_C6_sequencing (Task : Type) :
    (∀ st : JobState Task,
       (Job.prepareRun st).trace =
         st.trace ++ [JobEvent.setupHook, JobEvent.planComputed] ∧
       (Job.prepareRun st).executionQueue = st.executionQueue ∧
       (Job.prepareRun st).plan =
         some (Job.applyPlan (st.agentSetup st.agent).plan st.enqueuedTasks)) ∧
    (∀ st st' : JobState Task, Job.applyNextExecutionBlock st = Except.ok st' →
       st'.planIdx = st.planIdx + 1 ∧
       ∃ p block, st.plan = some p ∧
         Job.buildExecutionBlock (Job.protoAgent Task) (jsIndex p (st.planIdx + 1)) =
           Except.ok block ∧
         st'.executionQueue = st.executionQueue ++ [block] ∧
         st'.plan = st.plan ∧
         st'.trace = st.trace ++ [JobEvent.blockApplied (st.planIdx + 1)]) ∧
    (∀ st st' : JobState Task, Job.onJobStart st = Except.ok st' →
       st'.trace = st.trace ++ [JobEvent.setupHook, JobEvent.planComputed,
         JobEvent.blockApplied (st.planIdx + 1)] ∧
       ∃ block, st'.executionQueue = st.executionQueue ++ [block]) ∧
    (∀ st st' : JobState Task, Job.cursorQueueAligned st → Job.queueMatchesPlan st →
       Job.applyNextExecutionBlock st = Except.ok st' →
       Job.cursorQueueAligned st' ∧ Job.queueMatchesPlan st') := by
  refine ⟨?_, ?_, ?_, ?_⟩
  · intro st
    exact ⟨(prepareRun_fields st).1, (prepareRun_fields st).2.1,
      (prepareRun_fields st).2.2.1⟩
  · intro st st' h
    obtain ⟨p, block, hp, hb, rfl⟩ := applyNext_ok st st' h
    exact ⟨rfl, p, block, hp, hb, rfl, rfl, rfl⟩
  · intro st st' h
    unfold Job.onJobStart at h
    obtain ⟨p, block, hp, hb, rfl⟩ := applyNext_ok _ _ h
    have hf := prepareRun_fields st
    constructor
    · show (Job.prepareRun st).trace ++
          [JobEvent.blockApplied ((Job.prepareRun st).planIdx + 1)] = _
      rw [hf.1, hf.2.2.2.2.1]
      simp
    · exact ⟨block, by
        show (Job.prepareRun st).executionQueue ++ [block] = _
        rw [hf.2.1]⟩
  · intro st st' h1 h2 h
    obtain ⟨p, block, hp, hb, rfl⟩ := applyNext_ok st st' h
    constructor
    · unfold Job.cursorQueueAligned at h1 ⊢
      simp only [List.length_append, List.length_cons, List.length_nil]
      omega
    · intro i b hib
      by_cases hi : i < st.executionQueue.length
      · rw [show ({ st with
            planIdx := st.planIdx + 1
            executionQueue := st.executionQueue ++ [block]
            trace := st.trace ++ [JobEvent.blockApplied (st.planIdx + 1)] }
              : JobState Task).executionQueue
            = st.executionQueue ++ [block] from rfl, List.get?_append hi] at hib
        obtain ⟨p', hp', hb'⟩ := h2 i b hib
        exact ⟨p', hp', hb'⟩
      · have hge : st.executionQueue.length ≤ i := by omega
        rw [show ({ st with
            planIdx := st.planIdx + 1
            executionQueue := st.executionQueue ++ [block]
            trace := st.trace ++ [JobEvent.blockApplied (st.planIdx + 1)] }
              : JobState Task).executionQueue
            = st.executionQueue ++ [block] from rfl, List.get?_append_right hge] at hib
        cases hd : i - st.executionQueue.length with
        | zero =>
            rw [hd] at hib
            have hbb : block = b := by simpa using hib
            subst hbb
            refine ⟨p, hp, ?_⟩
            have hi' : (i : Int) = st.planIdx + 1 := by
              unfold Job.cursorQueueAligned at h1
              omega
            rw [hi']
            exact hb
        | succ n =>
            rw [hd] at hib
            simp at hib

/-- Witness for C6 on the concrete empty-agent job. -/
theorem claim_C6_sequencing_witness :
    (Job.prepareRun jobE).plan =
      some (Job.applyPlan (jobE.agentSetup jobE.agent).plan jobE.enqueuedTasks) ∧
    jobEAfter.planIdx = jobEPrepared.planIdx + 1 ∧
    jobEStarted.trace = jobE.trace ++ [JobEvent.setupHook, JobEvent.planComputed,
      JobEvent.blockApplied (jobE.planIdx + 1)] ∧
    Job.cursorQueueAligned jobEAfter ∧ Job.queueMatchesPlan jobEAfter := by
  have h := claim_C6_sequencing String
  have h1 := (h.1 jobE).2.2
  have h2 := (h.2.1 jobEPrepared jobEAfter rfl).1
  have h3 := (h.2.2.1 jobE jobEStarted rfl).1
  have h4 := h.2.2.2 jobEPrepared jobEAfter
    (by unfold Job.cursorQueueAligned; decide)
    (fun i b hib => by cases i <;> exact Option.noConfusion hib)
    rfl
  exact ⟨h1, h2, h3, h4.1, h4.2⟩

/-- C7 counterexample: constructing with an undefined uid succeeds (no
InvalidArgument is raised) and leaves `uid` null, not a non-empty
string. -/
theorem claim_C7_counterexample :
    Job.new agentE id JsVal.undef = Except.ok jobE ∧
    jobE.uid = JsVal.null ∧
    ∀ s : String, jobE.uid ≠ JsVal.str s := by
  refine ⟨rfl, rfl, fun s h => ?_⟩
  exact JsVal.noConfusion h

/-- C7 amended: constructing with a defined uid that is not a non-empty
string raises InvalidArgument synchronously; with uid undefined the
constructor succeeds leaving uid null; with a non-empty string uid the
constructor assigns it once, and no operation (`params`, `enqueue`,
`run`) ever changes `uid`. -/
theorem claim_C7_amended {Task : Type} (agent : Agent Task)
    (hook : Agent Task → Agent Task) (v : JsVal) :
    (v ≠ JsVal.undef → (∀ s : String, v = JsVal.str s → s = "") →
       Job.new agent hook v = Except.error "Job uid must be a valid string") ∧
    (Job.new agent hook JsVal.undef = Except.ok (Job.initJob agent hook) ∧
       (Job.initJob agent hook).uid = JsVal.null) ∧
    (∀ s : String, s ≠ "" →
       Job.new agent hook (JsVal.str s) =
         Except.ok { Job.initJob agent hook with uid := JsVal.str s }) ∧
    (∀ (st st' : JobState Task) (arg : JsVal),
       (Job.params st arg = Except.ok st' → st'.uid = st.uid) ∧
       (Job.enqueue st arg = Except.ok st' → st'.uid = st.uid)) ∧
    (∀ st st' : JobState Task, Job.run st = Except.ok st' → st'.uid = st.uid) := by
  refine ⟨?_, ⟨rfl, rfl⟩, ?_, ?_, fun st st' => run_ok_uid st st'⟩
  · intro hne hstr
    cases v with
    | undef => exact absurd rfl hne
    | null => rfl
    | bool b =>
        simp [Job.new, Job.setUid, JsVal.falsy, JsVal.isString, JsVal.lengthProp, jsLE]
    | num n =>
        simp [Job.new, Job.setUid, JsVal.falsy, JsVal.isString, JsVal.lengthProp, jsLE]
    | str s =>
        have hs : s = "" := hstr s rfl
        subst hs
        rfl
    | arr xs => rfl
    | obj kvs => rfl
  · intro s hs
    have hlen : 0 < s.length := by
      cases s with
      | mk d =>
          cases d with
          | nil => exact absurd rfl hs
          | cons c cs => simp [String.length]
    show Job.setUid (Job.initJob agent hook) (JsVal.str s) = _
    have h1 : (JsVal.str s).falsy = false := by
      simp [JsVal.falsy]
      exact hs
    have h2 : jsLE (JsVal.str s).lengthProp 0 = false := by
      simp [JsVal.lengthProp, jsLE]
      omega
    simp [Job.setUid, h1, h2, JsVal.isString]
  · intro st st' arg
    constructor
    · intro h
      unfold Job.params at h
      split at h
      · exact absurd h (by simp)
      · injection h with h
        rw [← h]
    · intro h
      unfold Job.enqueue at h
      split at h
      · exact absurd h (by simp)
      · injection h with h
        rw [← h]

/-- Witness for the amended C7: concrete invalid, undefined and valid
uids, plus uid preservation across enqueue and run. -/
theorem claim_C7_amended_witness :
    Job.new agentE id (JsVal.num 5) = Except.error "Job uid must be a valid string" ∧
    (Job.initJob agentE id).uid = JsVal.null ∧
    Job.new agentE id (JsVal.str "job1") =
      Except.ok { Job.initJob agentE id with uid := JsVal.str "job1" } ∧
    ({ jobE with enqueuedTasks := ["t"] } : JobState String).uid = jobE.uid ∧
    jobExhausted.uid = jobExhausted.uid := by
  have h := claim_C7_amended agentE id (JsVal.num 5)
  exact ⟨h.1 (fun hh => JsVal.noConfusion hh) (fun s hs => JsVal.noConfusion hs),
    h.2.1.2,
    h.2.2.1 "job1" (by decide),
    (h.2.2.2.1 jobE { jobE with enqueuedTasks := ["t"] } (JsVal.str "t")).2 rfl,
    h.2.2.2.2 jobExhausted jobExhausted rfl⟩

/-- C8: `params` raises InvalidArgument on an array or non-object (the
job unchanged, no ok state produced), otherwise shallow-merges with
overwrite into `_params`; `params({a:1})` then `params({a:2,b:3})` leaves
the params equal to `{a:2, b:3}`. -/
theorem claim_C8_params {Task : Type} (st : JobState Task) (v : JsVal) :
    (v.isArray = true ∨ v.isObject = false →
       Job.params st v = Except.error "Params must be an object") ∧
    (∀ kvs, v = JsVal.obj kvs →
       Job.params st v = Except.ok { st with prms := jsExtend st.prms kvs }) ∧
    (∀ st1 st2 : JobState Task, st.prms = [] →
       Job.params st (JsVal.obj [("a", JsVal.num 1)]) = Except.ok st1 →
       Job.params st1 (JsVal.obj [("a", JsVal.num 2), ("b", JsVal.num 3)]) =
         Except.ok st2 →
       st2.prms = [("a", JsVal.num 2), ("b", JsVal.num 3)]) := by
  refine ⟨?_, ?_, ?_⟩
  · intro h
    unfold Job.params
    rcases h with h | h
    · rw [if_pos (by simp [h])]
    · rw [if_pos (by simp [h])]
  · intro kvs hv
    subst hv
    rfl
  · intro st1 st2 h0 h1 h2
    have e1 : Job.params st (JsVal.obj [("a", JsVal.num 1)]) =
        Except.ok { st with prms := jsExtend st.prms [("a", JsVal.num 1)] } := rfl
    rw [e1] at h1
    injection h1 with h1
    subst h1
    have e2 : Job.params { st with prms := jsExtend st.prms [("a", JsVal.num 1)] }
        (JsVal.obj [("a", JsVal.num 2), ("b", JsVal.num 3)]) =
        Except.ok { st with prms := (jsExtend (jsExtend st.prms [("a", JsVal.num 1)])
          [("a", JsVal.num 2), ("b", JsVal.num 3)]) } := rfl
    rw [e2] at h2
    injection h2 with h2
    subst h2
    show jsExtend (jsExtend st.prms [("a", JsVal.num 1)])
      [("a", JsVal.num 2), ("b", JsVal.num 3)] = _
    rw [h0]
    rfl

/-- Witness for C8 at concrete argument values. -/
theorem claim_C8_params_witness :
    Job.params jobE (JsVal.arr []) = Except.error "Params must be an object" ∧
    Job.params jobE (JsVal.obj [("a", JsVal.num 1)]) =
      Except.ok { jobE with prms := jsExtend jobE.prms [("a", JsVal.num 1)] } ∧
    ({ jobE with prms := (jsExtend (jsExtend jobE.prms [("a", JsVal.num 1)])
        [("a", JsVal.num 2), ("b", JsVal.num 3)]) } : JobState String).prms =
      [("a", JsVal.num 2), ("b", JsVal.num 3)] := by
  have h := claim_C8_params jobE (JsVal.arr [])
  have h2 := claim_C8_params jobE (JsVal.obj [("a", JsVal.num 1)])
  exact ⟨h.1 (Or.inl rfl), h2.2.1 _ rfl,
    h2.2.2 { jobE with prms := jsExtend jobE.prms [("a", JsVal.num 1)] }
      { jobE with prms := (jsExtend (jsExtend jobE.prms [("a", JsVal.num 1)])
          [("a", JsVal.num 2), ("b", JsVal.num 3)]) }
      rfl rfl rfl⟩

/-- C9: each verb delegate completion without error appends exactly one
log entry holding the response, the body, the cookie string resolved for
the response origin, the effective request and the final URL; `getLog`
returns the accumulated entries in completion order. -/
theorem claim_C9_http_log (v : Http.Verb) (st : HttpState) (c : Http.Completion)
    (cb : Bool) (herr : c.err = none) :
    ((Http.verbComplete v st c cb).1.log =
       st.log ++ [Http.completionEntry st.cookieJar c] ∧
     (Http.verbComplete v st c cb).1.log.length = st.log.length + 1 ∧
     Http.getLog (Http.verbComplete v st c cb).1 =
       Http.getLog st ++ [Http.completionEntry st.cookieJar c]) ∧
    (∀ cs : List (Http.Verb × Http.Completion × Bool),
       (∀ x ∈ cs, x.2.1.err = none) →
       Http.getLog (Http.processCompletions st cs) =
         Http.getLog st ++ cs.map (fun x => Http.completionEntry st.cookieJar x.2.1)) := by
  have hstep : (Http.verbComplete v st c cb).1 =
      { st with log := st.log ++ [Http.completionEntry st.cookieJar c] } := by
    unfold Http.verbComplete Http.interceptResponse Http.completionEntry
    rw [herr]
  refine ⟨⟨by rw [hstep], by rw [hstep]; simp, by rw [hstep]; rfl⟩, ?_⟩
  intro cs h
  exact (processCompletions_log cs st h).1

/-- Witness for C9: two concrete get completions logged in order. -/
theorem claim_C9_http_log_witness :
    Http.getLog (Http.processCompletions httpW
        [(Http.Verb.get, compW, true), (Http.Verb.get, compW2, true)]) =
      [Http.completionEntry httpW.cookieJar compW,
       Http.completionEntry httpW.cookieJar compW2] ∧
    (Http.verbComplete Http.Verb.get httpW compW true).1.log.length =
      httpW.log.length + 1 := by
  have h := claim_C9_http_log Http.Verb.get httpW compW true rfl
  have h2 := h.2 [(Http.Verb.get, compW, true), (Http.Verb.get, compW2, true)]
    (by intro x hx; fin_cases hx <;> rfl)
  exact ⟨by simpa using h2, h.1.2.1⟩

end Yakuza
